import Mathlib

/-!
Shallow embedding of `samcli/commands/sync/sync_context.py`: the sync-state
store (`SyncContext`), its TOML (de)serialization helpers
(`_sync_state_to_toml_document`, `_toml_document_to_sync_state`), and the
store lifecycle (`__enter__`, `__exit__`, `update_resource_sync_state`,
`get_resource_latest_sync_hash`, `_read`, `_write`,
`_cleanup_build_folders`).

Modelling conventions:
* TOML values are the inductive `Toml` (strings, booleans, nested tables);
  a table is an ordered association list with Python-dict semantics
  (assignment replaces in place, otherwise appends).
* The persisted file is modelled as holding a parsed document directly
  (`Option TomlDoc`); `tomlkit.dumps`/`tomlkit.loads` are the opaque
  serializer pair, `none` models an absent or unreadable file (`OSError`).
* Python exceptions are modelled with `Except String`; the string tags the
  exception class (`TypeError`, `ValueError`, `AttributeError`).
* `datetime` values are abstracted as `Timestamp := Nat`;
  `isoformat`/`fromisoformat` are modelled as a verified injective decimal
  rendering and its inverse (failing on non-numeric text, modelling
  `ValueError` on invalid ISO-8601 input).
* Python object aliasing of the `resource_sync_states` dict (shared between
  `_current_state` and `_previous_state` after `_read`) is modelled with an
  explicit heap of dict objects addressed by `Nat` references.
-/

/-- The constant `HASH = "hash"` from the source. -/
def HASH : String := "hash"

/-- The constant `SYNC_TIME = "sync_time"` from the source. -/
def SYNC_TIME : String := "sync_time"

/-- The constant `DEPENDENCY_LAYER = "dependency_layer"` from the source. -/
def DEPENDENCY_LAYER : String := "dependency_layer"

/-- The constant `SYNC_STATE = "sync_state"` from the source. -/
def SYNC_STATE : String := "sync_state"

/-- The constant `RESOURCE_SYNC_STATES = "resource_sync_states"` from the source. -/
def RESOURCE_SYNC_STATES : String := "resource_sync_states"

/-- TOML values that can appear in the sync-state document: strings,
booleans and nested tables.  A table is an ordered association list
(insertion order, unique keys when built through `dictSet`). -/
inductive Toml where
  | str (s : String)
  | bool (b : Bool)
  | table (entries : List (String × Toml))

/-- A TOML document: the top-level table.  (The generated comment line of
the real document carries no key/value data and is not modelled.) -/
abbrev TomlDoc := List (String × Toml)

/-- Python `dict.get(key)` on an ordered association list: the value of the
first entry whose key matches, `none` (Python `None`) otherwise. -/
def dictGet {α : Type} : List (String × α) → String → Option α
  | [], _ => none
  | (k, v) :: rest, key => if k = key then some v else dictGet rest key

/-- Python `d[key] = val` on an ordered association list: replace in place
if the key is present, append otherwise (Python-dict insertion semantics,
also matched by tomlkit tables). -/
def dictSet {α : Type} : List (String × α) → String → α → List (String × α)
  | [], key, val => [(key, val)]
  | (k, v) :: rest, key, val =>
      if k = key then (k, val) :: rest else (k, v) :: dictSet rest key val

/-- Python truthiness for the TOML values we model: a string is truthy iff
non-empty, a boolean iff `true`, a table iff non-empty. -/
def truthy : Toml → Bool
  | .str s => !(s == "")
  | .bool b => b
  | .table t => !t.isEmpty

/-- Python truthiness for a value that may be `None` (`none` is falsy). -/
def truthyOpt : Option Toml → Bool
  | none => false
  | some v => truthy v

/-- One character of `resource_id.replace("/", "-")` (a single-character
`str.replace` is a per-character map). -/
def escapeChar (c : Char) : Char := if c = '/' then '-' else c

/-- `resource_id.replace("/", "-")`, as done when a `SyncState` is encoded
to the TOML document (sync_context.py line 75). -/
def escapeId (s : String) : String := String.mk (s.data.map escapeChar)

/-- One character of `resource_id.replace("-", "/")`. -/
def unescapeChar (c : Char) : Char := if c = '-' then '/' else c

/-- `resource_id.replace("-", "/")`, as done when the TOML document is
decoded back to a `SyncState` (sync_context.py line 116). -/
def unescapeId (s : String) : String := String.mk (s.data.map unescapeChar)

/-- Timestamps (`datetime` in the source) are abstracted as natural
numbers. -/
abbrev Timestamp := Nat

/-- A decimal digit rendered as a character (used by the model of
`datetime.isoformat`). -/
def digitChar (d : Nat) : Char :=
  match d with
  | 0 => '0' | 1 => '1' | 2 => '2' | 3 => '3' | 4 => '4'
  | 5 => '5' | 6 => '6' | 7 => '7' | 8 => '8' | _ => '9'

/-- The numeric value of a decimal digit character. -/
def charVal (c : Char) : Nat :=
  match c with
  | '0' => 0 | '1' => 1 | '2' => 2 | '3' => 3 | '4' => 4
  | '5' => 5 | '6' => 6 | '7' => 7 | '8' => 8 | _ => 9

/-- Is `c` a decimal digit character? -/
def isDigitChar (c : Char) : Bool :=
  c = '0' || c = '1' || c = '2' || c = '3' || c = '4' ||
  c = '5' || c = '6' || c = '7' || c = '8' || c = '9'

/-- Little-endian decimal digits of `n`, with explicit fuel so that the
function is structurally recursive (agrees with `Nat.digits 10 n` once
`n ≤ fuel`). -/
def toDigitsRev (fuel n : Nat) : List Nat :=
  match fuel with
  | 0 => []
  | fuel + 1 => if n = 0 then [] else n % 10 :: toDigitsRev fuel (n / 10)

/-- Model of the external `datetime.isoformat`: an injective text rendering
of a timestamp (decimal, most significant digit first). -/
def isoformat (t : Timestamp) : String :=
  if t = 0 then "0" else String.mk (((toDigitsRev t t).map digitChar).reverse)

/-- Model of the external `datetime.fromisoformat`: the exact inverse of
`isoformat`; returns `none` (modelling `ValueError`) on text that is not a
valid rendering. -/
def fromisoformat (s : String) : Option Timestamp :=
  if s.data ≠ [] ∧ s.data.all isDigitChar then
    some (Nat.ofDigits 10 (s.data.reverse.map charVal))
  else none

/-- The dataclass `ResourceSyncState`.  `hash_value` is declared `str` in
the source but the decoder can populate it with any TOML value or with
`None` (a missing `hash` key), so it is modelled as `Option Toml`. -/
structure ResourceSyncState where
  hash_value : Option Toml
  sync_time : Timestamp

/-- A `resource_sync_states` dict: resource id to record, insertion
ordered. -/
abbrev Records := List (String × ResourceSyncState)

/-- The dataclass `SyncState` as a value (used by the pure encode/decode
helpers).  `dependency_layer` is declared `bool` but the decoder can
populate it with `None` or any TOML value, so it is modelled as
`Option Toml`; a live session constructs it as `some (.bool b)`. -/
structure SyncState where
  dependency_layer : Option Toml
  resource_sync_states : Records

/-- The inner table built for one record by `_sync_state_to_toml_document`:
sets `HASH`, then `SYNC_TIME` (isoformat text).  Assigning Python `None`
into a tomlkit table raises `ValueError`, hence the error case for a
record whose `hash_value` is `None`. -/
def recordToToml (r : ResourceSyncState) : Except String Toml :=
  match r.hash_value with
  | none => .error "ValueError"
  | some v =>
      .ok (.table (dictSet (dictSet [] HASH v) SYNC_TIME (.str (isoformat r.sync_time))))

/-- The loop of `_sync_state_to_toml_document` over
`sync_state.resource_sync_states` (insertion order): each record's table is
assigned at the escaped resource id (later colliding ids overwrite). -/
def buildResourceTables : Records → List (String × Toml) → Except String (List (String × Toml))
  | [], acc => .ok acc
  | (resource_id, r) :: rest, acc =>
      match recordToToml r with
      | .error e => .error e
      | .ok t => buildResourceTables rest (dictSet acc (escapeId resource_id) t)

/-- `_sync_state_to_toml_document` (sync_context.py lines 48-83): builds the
`sync_state` table (the `dependency_layer` key), the
`resource_sync_states` table, and adds both to a fresh document. -/
def syncStateToTomlDocument (sync_state : SyncState) : Except String TomlDoc :=
  match sync_state.dependency_layer with
  | none => .error "ValueError"
  | some depVal =>
      match buildResourceTables sync_state.resource_sync_states [] with
      | .error e => .error e
      | .ok resTables =>
          .ok [(SYNC_STATE, .table (dictSet [] DEPENDENCY_LAYER depVal)),
               (RESOURCE_SYNC_STATES, .table resTables)]

/-- The loop of `_toml_document_to_sync_state` over the keys of the
`resource_sync_states` table: looks the entry up (`.get(resource_id)`),
requires it to be a table (otherwise `AttributeError`), reads `hash`
(missing gives `None`, no error), parses `sync_time` with `fromisoformat`
(`None` or a non-string raises `TypeError`, unparsable text raises
`ValueError`), and stores the record at the unescaped id. -/
def decodeResourceEntries (tbl : List (String × Toml)) :
    List (String × Toml) → Records → Except String Records
  | [], acc => .ok acc
  | (resource_id, _) :: rest, acc =>
      match dictGet tbl resource_id with
      | some (.table rt) =>
          match dictGet rt SYNC_TIME with
          | some (.str s) =>
              match fromisoformat s with
              | some t =>
                  decodeResourceEntries tbl rest
                    (dictSet acc (unescapeId resource_id) ⟨dictGet rt HASH, t⟩)
              | none => .error "ValueError"
          | some _ => .error "TypeError"
          | none => .error "TypeError"
      | some _ => .error "AttributeError"
      | none => .error "AttributeError"

/-- `_toml_document_to_sync_state` (sync_context.py lines 86-124).  Returns
`.ok none` for a falsy document or when neither section is truthy; decodes
the resource table (raising as in `decodeResourceEntries`, or
`TypeError`/`AttributeError` when the `resource_sync_states` value is a
truthy non-table); `dependency_layer` defaults to Python `False` and is
read from the `sync_state` table when that is truthy (a truthy non-table
raises `AttributeError` at `.get`). -/
def tomlDocumentToSyncState (toml_document : TomlDoc) : Except String (Option SyncState) :=
  if toml_document.isEmpty then .ok none
  else
    let sst := dictGet toml_document SYNC_STATE
    let rst := (dictGet toml_document RESOURCE_SYNC_STATES).getD (.table [])
    if !(truthyOpt sst || truthy rst) then .ok none
    else
      match ((if truthy rst then
              match rst with
              | .table entries => decodeResourceEntries entries entries []
              | _ => .error "AttributeError"
             else .ok []) : Except String Records) with
      | .error e => .error e
      | .ok records =>
          match ((if truthyOpt sst then
                  match sst with
                  | some (.table st) => .ok (dictGet st DEPENDENCY_LAYER)
                  | _ => .error "AttributeError"
                 else .ok (some (.bool false))) : Except String (Option Toml)) with
          | .error e => .error e
          | .ok dep => .ok (some ⟨dep, records⟩)

/-- The `_previous_state` object after a successful load: its
`dependency_layer` value and a heap reference to its
`resource_sync_states` dict. -/
structure PrevState where
  dependency_layer : Option Toml
  records_ref : Nat

/-- The `SyncContext` store together with its environment: the session
flag and the heap reference of `_current_state`, the optional
`_previous_state`, a heap of `resource_sync_states` dict objects (so that
the aliasing created by `_read` is observable), the state file content
(`none` models an absent/unreadable file), the existence of the three
directories removed by `_cleanup_build_folders`, and an instrumentation
counter of `_cleanup_build_folders` invocations. -/
structure SyncContext where
  current_dep : Bool
  current_ref : Nat
  prev : Option PrevState
  heap : List Records
  file : Option TomlDoc
  build_dir_exists : Bool
  cache_dir_exists : Bool
  deps_dir_exists : Bool
  cleanup_count : Nat

/-- `SyncContext.__init__` (sync_context.py lines 134-139): an empty
current state carrying the caller-supplied `dependency_layer`, no previous
state.  The file content and directory existence describe the ambient
environment at construction. -/
def mkSyncContext (dependency_layer : Bool) (file : Option TomlDoc)
    (build_dir_exists cache_dir_exists deps_dir_exists : Bool) : SyncContext :=
  ⟨dependency_layer, 0, none, [[]], file, build_dir_exists, cache_dir_exists,
   deps_dir_exists, 0⟩

/-- The dict object `_current_state.resource_sync_states` currently
points to. -/
def currentRecords (ctx : SyncContext) : Records :=
  ctx.heap.getD ctx.current_ref []

/-- `Python None != bool` semantics for the `__enter__` comparison
`previous_state.dependency_layer != current_state.dependency_layer`: a
Python value equals a `bool` exactly when it is that boolean (`None`,
strings and tables never equal a `bool`). -/
def pyEqBool (v : Option Toml) (b : Bool) : Bool :=
  match v with
  | some (.bool c) => c == b
  | _ => false

/-- `SyncContext._read` (sync_context.py lines 204-212): an absent or
unreadable file raises `OSError`, which is caught and logged (no state
change).  Otherwise the document is decoded; a decode exception is NOT an
`OSError` and propagates.  On a truthy decoded state, `_previous_state` is
set and `_current_state.resource_sync_states` is rebound to the SAME dict
object (reference assignment, no copy). -/
def readState (ctx : SyncContext) : Except String SyncContext :=
  match ctx.file with
  | none => .ok ctx
  | some doc =>
      match tomlDocumentToSyncState doc with
      | .error e => .error e
      | .ok none => .ok { ctx with prev := none }
      | .ok (some s) =>
          .ok { ctx with
                heap := ctx.heap ++ [s.resource_sync_states],
                prev := some ⟨s.dependency_layer, ctx.heap.length⟩,
                current_ref := ctx.heap.length }

/-- `SyncContext._cleanup_build_folders` (sync_context.py lines 214-226):
`rmtree_if_exists` on the build, cache and dependencies directories (each
a no-op when absent).  `cleanup_count` instruments the number of
invocations. -/
def cleanupBuildFolders (ctx : SyncContext) : SyncContext :=
  { ctx with build_dir_exists := false, cache_dir_exists := false,
             deps_dir_exists := false, cleanup_count := ctx.cleanup_count + 1 }

/-- `SyncContext.__enter__` (sync_context.py lines 141-152): read the
previous state under the lock, then clean the build folders exactly when a
previous state was loaded and its `dependency_layer` differs (Python `!=`)
from the session's. -/
def enterContext (ctx : SyncContext) : Except String SyncContext :=
  match readState ctx with
  | .error e => .error e
  | .ok c =>
      match c.prev with
      | some p =>
          if pyEqBool p.dependency_layer c.current_dep then .ok c
          else .ok (cleanupBuildFolders c)
      | none => .ok c

/-- `SyncContext._write` (sync_context.py lines 200-202): encode the
current state and replace the file content (`open(.., "w+")` truncates).
An encode exception propagates and the file is left unwritten. -/
def writeState (ctx : SyncContext) : Except String SyncContext :=
  match syncStateToTomlDocument ⟨some (.bool ctx.current_dep), currentRecords ctx⟩ with
  | .error e => .error e
  | .ok doc => .ok { ctx with file := some doc }

/-- `SyncContext.__exit__` (sync_context.py lines 154-156): write the
current state under the lock. -/
def exitContext (ctx : SyncContext) : Except String SyncContext :=
  writeState ctx

/-- `SyncContext.update_resource_sync_state` (sync_context.py lines
158-173), with the current UTC time passed explicitly: under the lock,
mutate the current records dict in place
(`SyncState.update_resource_sync_state`, line 44) and then persist via
`_write`.  The dict mutation happens before any write exception. -/
def updateResourceSyncState (ctx : SyncContext) (resource_id hash_value : String)
    (now : Timestamp) : Except String SyncContext :=
  let newRecords := dictSet (currentRecords ctx) resource_id ⟨some (.str hash_value), now⟩
  writeState { ctx with heap := ctx.heap.set ctx.current_ref newRecords }

/-- `SyncContext.get_resource_latest_sync_hash` (sync_context.py lines
175-198): a pure read of the current records dict; a missing record gives
`None` (a dataclass instance is always truthy, so `if not record` is
exactly the `None` test). -/
def getResourceLatestSyncHash (ctx : SyncContext) (resource_id : String) : Option Toml :=
  match dictGet (currentRecords ctx) resource_id with
  | none => none
  | some r => r.hash_value

/-- The records dict `_previous_state` points to (for observing the
aliasing), `none` when there is no previous state. -/
def prevRecords (ctx : SyncContext) : Option Records :=
  ctx.prev.map (fun p => ctx.heap.getD p.records_ref [])

/-- The key set (in insertion order) of the previous state's records
dict. -/
def prevRecordKeys (ctx : SyncContext) : Option (List String) :=
  (prevRecords ctx).map (fun rs => rs.map Prod.fst)

/-- Decode-of-encode observation used to exercise the round-trip claims on
concrete states. -/
def roundTripRecords (s : SyncState) : Option Records :=
  match syncStateToTomlDocument s with
  | .error _ => none
  | .ok doc =>
      match tomlDocumentToSyncState doc with
      | .ok (some s2) => some s2.resource_sync_states
      | _ => none

/-- Does the identifier avoid the character `'-'`?  (The escaping transform
is only invertible on such identifiers.) -/
def noDash (s : String) : Bool := s.data.all (fun c => !(c == '-'))

/-- Is this Python value a (non-`None`) string, as the declared type of
`ResourceSyncState.hash_value` promises? -/
def isStrHash : Option Toml → Bool
  | some (.str _) => true
  | _ => false

/-- The inner TOML table `recordToToml` produces for a record whose hash is
present (total companion of `recordToToml`). -/
def recTableOf (r : ResourceSyncState) : Toml :=
  .table (dictSet (dictSet [] HASH (r.hash_value.getD (.str ""))) SYNC_TIME
    (.str (isoformat r.sync_time)))

/-- The entry the encoder emits for one record: escaped id, record table. -/
def encEntry (p : String × ResourceSyncState) : String × Toml :=
  (escapeId p.1, recTableOf p.2)

/-- Is this TOML value a table whose `sync_time` entry is a string that
`fromisoformat` accepts?  (Exactly the resource entries the decoder
processes without raising.) -/
def entryTimeOk (v : Toml) : Bool :=
  match v with
  | .table rt =>
      match dictGet rt SYNC_TIME with
      | some (.str s) => (fromisoformat s).isSome
      | _ => false
  | _ => false

/-- Is the `resource_sync_states` section value one the decoder tolerates:
absent, falsy, or a table all of whose entries have a parseable
`sync_time`? -/
def resourceSectionOk (v : Option Toml) : Bool :=
  match v with
  | none => true
  | some (.table es) => es.all (fun p => entryTimeOk p.2)
  | some w => !truthy w

/-- Is the `sync_state` section value one the decoder tolerates: absent,
falsy, or a table? -/
def syncSectionOk (v : Option Toml) : Bool :=
  match v with
  | none => true
  | some (.table _) => true
  | some w => !truthy w

/-- The key list of the round-tripped records (observation used on
concrete states). -/
def roundTripRecordKeys (s : SyncState) : Option (List String) :=
  (roundTripRecords s).map (fun rs => rs.map Prod.fst)

/-- Observation for the write-through claim: run
`update_resource_sync_state` and decode the file it persisted. -/
def persistedStateAfterUpdate (ctx : SyncContext) (resource_id hash_value : String)
    (now : Timestamp) : Option SyncState :=
  match updateResourceSyncState ctx resource_id hash_value now with
  | .error _ => none
  | .ok c2 =>
      match c2.file with
      | none => none
      | some d =>
          match tomlDocumentToSyncState d with
          | .ok s => s
          | .error _ => none

/-- The concrete state used to refute the unrestricted round-trip claim: a
single record whose identifier contains `'-'`. -/
def dashState : SyncState :=
  ⟨some (.bool true), [("a-b", ⟨some (.str "h0"), 0⟩)]⟩

/-- A persisted document with one record under `"x"`, used to exercise the
previous-state aliasing on concrete runs. -/
def c4PrevDoc : TomlDoc :=
  [(SYNC_STATE, .table [(DEPENDENCY_LAYER, .bool true)]),
   (RESOURCE_SYNC_STATES, .table
     [("x", .table [(HASH, .str "h0"), (SYNC_TIME, .str "5")])])]

/-- The context produced by `__enter__` on `c4PrevDoc` with the same flag
(no cleanup): previous and current state share the records dict at heap
reference 1. -/
def c4Ctx1 : SyncContext :=
  ⟨true, 1, some ⟨some (.bool true), 1⟩,
   [[], [("x", ⟨some (.str "h0"), 5⟩)]], some c4PrevDoc, true, true, true, 0⟩

/-- The context after updating `"y"` in `c4Ctx1`: the shared records dict
gained the new record, and the file was rewritten. -/
def c4Ctx2 : SyncContext :=
  ⟨true, 1, some ⟨some (.bool true), 1⟩,
   [[], [("x", ⟨some (.str "h0"), 5⟩), ("y", ⟨some (.str "h1"), 6⟩)]],
   some [(SYNC_STATE, .table [(DEPENDENCY_LAYER, .bool true)]),
         (RESOURCE_SYNC_STATES, .table
           [("x", .table [(HASH, .str "h0"), (SYNC_TIME, .str "5")]),
            ("y", .table [(HASH, .str "h1"), (SYNC_TIME, .str "6")])])],
   true, true, true, 0⟩

/-! ### Basic lemmas about escaping and the timestamp codec -/

theorem unescapeChar_escapeChar {c : Char} (h : c ≠ '-') :
    unescapeChar (escapeChar c) = c := by
  by_cases hc : c = '/'
  · subst hc; rfl
  · simp [escapeChar, unescapeChar, hc, h]

theorem map_unescapeChar_escapeChar (l : List Char) (h : ∀ c ∈ l, c ≠ '-') :
    (l.map escapeChar).map unescapeChar = l := by
  induction l with
  | nil => rfl
  | cons c rest ih =>
      simp only [List.map_cons, List.cons.injEq]
      exact ⟨unescapeChar_escapeChar (h c (List.mem_cons_self c rest)),
             ih (fun d hd => h d (List.mem_cons_of_mem c hd))⟩

theorem escapeChar_ne_slash (c : Char) : escapeChar c ≠ '/' := by
  by_cases hc : c = '/' <;> simp [escapeChar, hc]

theorem unescapeChar_injOn {c d : Char} (hc : c ≠ '/') (hd : d ≠ '/')
    (h : unescapeChar c = unescapeChar d) : c = d := by
  unfold unescapeChar at h
  by_cases h1 : c = '-' <;> by_cases h2 : d = '-' <;> simp only [h1, h2, if_pos, if_neg, if_true, if_false] at h
  · rw [h1, h2]
  · exact absurd h.symm hd
  · exact absurd h hc
  · exact h

theorem isDigitChar_digitChar {d : Nat} (h : d < 10) :
    isDigitChar (digitChar d) = true := by
  interval_cases d <;> decide

theorem charVal_digitChar {d : Nat} (h : d < 10) : charVal (digitChar d) = d := by
  interval_cases d <;> decide

theorem toDigitsRev_eq_digits : ∀ (fuel n : Nat), n ≤ fuel →
    toDigitsRev fuel n = Nat.digits 10 n
  | 0, n, h => by
      have hn : n = 0 := Nat.le_zero.mp h
      subst hn
      simp [toDigitsRev, Nat.digits_zero]
  | fuel + 1, n, h => by
      by_cases hn : n = 0
      · subst hn; simp [toDigitsRev, Nat.digits_zero]
      · have hpos : 0 < n := Nat.pos_of_ne_zero hn
        have hdiv : n / 10 ≤ fuel := by
          have := Nat.div_lt_self hpos (by norm_num : 1 < 10)
          omega
        rw [toDigitsRev, if_neg hn, toDigitsRev_eq_digits fuel (n / 10) hdiv,
          Nat.digits_def' (by norm_num : 1 < 10) hpos]

/-- `fromisoformat` is the exact inverse of `isoformat`: the model of the
external `datetime` pair round-trips every timestamp. -/
theorem fromisoformat_isoformat (t : Timestamp) : fromisoformat (isoformat t) = some t := by
  by_cases ht : t = 0
  · subst ht; decide
  · have hdig : ∀ d ∈ Nat.digits 10 t, d < 10 :=
      fun d hd => Nat.digits_lt_base (by norm_num) hd
    have hne : Nat.digits 10 t ≠ [] := Nat.digits_ne_nil_iff_ne_zero.mpr ht
    simp only [isoformat, ht, if_false, fromisoformat,
      toDigitsRev_eq_digits t t (Nat.le_refl t)]
    have hnil : ((Nat.digits 10 t).map digitChar).reverse ≠ [] := by
      simp [List.reverse_eq_nil_iff, hne]
    have hall : (((Nat.digits 10 t).map digitChar).reverse).all isDigitChar = true := by
      rw [List.all_eq_true]
      intro c hc
      rw [List.mem_reverse, List.mem_map] at hc
      obtain ⟨d, hd, rfl⟩ := hc
      exact isDigitChar_digitChar (hdig d hd)
    rw [if_pos ⟨hnil, hall⟩, List.reverse_reverse, List.map_map]
    have hmap : (Nat.digits 10 t).map (charVal ∘ digitChar) = Nat.digits 10 t := by
      have h1 : (Nat.digits 10 t).map (charVal ∘ digitChar) = (Nat.digits 10 t).map id :=
        List.map_congr_left (fun d hd => charVal_digitChar (hdig d hd))
      rw [h1, List.map_id]
    rw [hmap, Nat.ofDigits_digits]

theorem string_mk_data (s : String) : String.mk s.data = s := by
  cases s
  rfl

theorem unescapeId_escapeId_of_no_dash (s : String) (h : ∀ c ∈ s.data, c ≠ '-') :
    unescapeId (escapeId s) = s := by
  unfold unescapeId escapeId
  rw [show (String.mk (s.data.map escapeChar)).data = s.data.map escapeChar from rfl]
  rw [map_unescapeChar_escapeChar s.data h, string_mk_data]

theorem escapeId_injOn {s1 s2 : String} (h1 : ∀ c ∈ s1.data, c ≠ '-')
    (h2 : ∀ c ∈ s2.data, c ≠ '-') (h : escapeId s1 = escapeId s2) : s1 = s2 := by
  have := congrArg unescapeId h
  rwa [unescapeId_escapeId_of_no_dash s1 h1, unescapeId_escapeId_of_no_dash s2 h2] at this

theorem escapeId_no_slash (s : String) : ∀ c ∈ (escapeId s).data, c ≠ '/' := by
  intro c hc
  rw [show (escapeId s).data = s.data.map escapeChar from rfl, List.mem_map] at hc
  obtain ⟨d, _, rfl⟩ := hc
  exact escapeChar_ne_slash d

theorem map_unescapeChar_injOn : ∀ (l1 l2 : List Char), (∀ c ∈ l1, c ≠ '/') →
    (∀ c ∈ l2, c ≠ '/') → l1.map unescapeChar = l2.map unescapeChar → l1 = l2
  | [], [], _, _, _ => rfl
  | [], _ :: _, _, _, h => by simp at h
  | _ :: _, [], _, _, h => by simp at h
  | c :: cs, d :: ds, h1, h2, h => by
      simp only [List.map_cons, List.cons.injEq] at h
      have hcd := unescapeChar_injOn (h1 c (by simp)) (h2 d (by simp)) h.1
      have hrest := map_unescapeChar_injOn cs ds (fun x hx => h1 x (by simp [hx]))
        (fun x hx => h2 x (by simp [hx])) h.2
      rw [hcd, hrest]

theorem unescapeId_injOn {s1 s2 : String} (h1 : ∀ c ∈ s1.data, c ≠ '/')
    (h2 : ∀ c ∈ s2.data, c ≠ '/') (h : unescapeId s1 = unescapeId s2) : s1 = s2 := by
  have hdata : s1.data.map unescapeChar = s2.data.map unescapeChar :=
    congrArg String.data h
  have hd := map_unescapeChar_injOn s1.data s2.data h1 h2 hdata
  rw [← string_mk_data s1, hd, string_mk_data]

/-! ### Association-list (Python dict) lemmas -/

theorem dictGet_dictSet_self {α : Type} (l : List (String × α)) (k : String) (v : α) :
    dictGet (dictSet l k v) k = some v := by
  induction l with
  | nil => simp [dictGet, dictSet]
  | cons p rest ih =>
      obtain ⟨k1, v1⟩ := p
      by_cases hk : k1 = k
      · simp [dictSet, dictGet, hk]
      · simp [dictSet, dictGet, hk, ih]

theorem dictGet_dictSet_ne {α : Type} (l : List (String × α)) {k k2 : String} (v : α)
    (h : k2 ≠ k) : dictGet (dictSet l k v) k2 = dictGet l k2 := by
  have hkk2 : k ≠ k2 := Ne.symm h
  induction l with
  | nil => simp [dictGet, dictSet, hkk2]
  | cons p rest ih =>
      obtain ⟨k1, v1⟩ := p
      by_cases hk : k1 = k
      · subst hk
        simp [dictSet, dictGet, hkk2]
      · simp [dictSet, dictGet, hk, ih]

theorem dictSet_eq_append {α : Type} (l : List (String × α)) {k : String} (v : α)
    (h : k ∉ l.map Prod.fst) : dictSet l k v = l ++ [(k, v)] := by
  induction l with
  | nil => rfl
  | cons p rest ih =>
      obtain ⟨k1, v1⟩ := p
      simp only [List.map_cons, List.mem_cons] at h
      push_neg at h
      simp [dictSet, Ne.symm h.1, ih h.2]

theorem keys_dictSet_of_mem {α : Type} (l : List (String × α)) {k : String} (v : α)
    (h : k ∈ l.map Prod.fst) : (dictSet l k v).map Prod.fst = l.map Prod.fst := by
  induction l with
  | nil => simp at h
  | cons p rest ih =>
      obtain ⟨k1, v1⟩ := p
      by_cases hk : k1 = k
      · simp [dictSet, hk]
      · simp only [List.map_cons, List.mem_cons] at h
        rcases h with h | h
        · exact absurd h.symm hk
        · simp [dictSet, hk, ih h]

theorem dictGet_eq_none_of_not_mem {α : Type} (l : List (String × α)) {k : String}
    (h : k ∉ l.map Prod.fst) : dictGet l k = none := by
  induction l with
  | nil => rfl
  | cons p rest ih =>
      obtain ⟨k1, v1⟩ := p
      simp only [List.map_cons, List.mem_cons] at h
      push_neg at h
      simp [dictGet, Ne.symm h.1, ih h.2]

theorem dictGet_isSome_of_mem {α : Type} (l : List (String × α)) {k : String}
    (h : k ∈ l.map Prod.fst) : ∃ v, dictGet l k = some v := by
  induction l with
  | nil => simp at h
  | cons p rest ih =>
      obtain ⟨k1, v1⟩ := p
      by_cases hk : k1 = k
      · exact ⟨v1, by simp [dictGet, hk]⟩
      · simp only [List.map_cons, List.mem_cons] at h
        rcases h with h | h
        · exact absurd h.symm hk
        · obtain ⟨v, hv⟩ := ih h
          exact ⟨v, by simp [dictGet, hk, hv]⟩

theorem dictGet_mem {α : Type} {l : List (String × α)} {k : String} {v : α}
    (h : dictGet l k = some v) : (k, v) ∈ l := by
  induction l with
  | nil => simp [dictGet] at h
  | cons p rest ih =>
      obtain ⟨k1, v1⟩ := p
      by_cases hk : k1 = k
      · subst hk
        simp [dictGet] at h
        simp [h]
      · simp [dictGet, hk] at h
        exact List.mem_cons_of_mem _ (ih h)

theorem nodup_keys_dictSet {α : Type} (l : List (String × α)) (k : String) (v : α)
    (h : (l.map Prod.fst).Nodup) : ((dictSet l k v).map Prod.fst).Nodup := by
  by_cases hm : k ∈ l.map Prod.fst
  · rwa [keys_dictSet_of_mem l v hm]
  · rw [dictSet_eq_append l v hm]
    simp only [List.map_append, List.map_cons, List.map_nil]
    rw [List.nodup_append]
    refine ⟨h, List.nodup_singleton k, ?_⟩
    intro a ha hak
    simp only [List.mem_singleton] at hak
    exact hm (hak ▸ ha)

/-! ### Encode/decode round-trip machinery -/

theorem noDash_iff {s : String} : noDash s = true ↔ ∀ c ∈ s.data, c ≠ '-' := by
  simp [noDash]

theorem recordToToml_of_isSome {r : ResourceSyncState}
    (h : r.hash_value.isSome = true) : recordToToml r = .ok (recTableOf r) := by
  cases hr : r.hash_value with
  | none => rw [hr] at h; simp at h
  | some v => simp [recordToToml, recTableOf, hr]

theorem escaped_keys_nodup {recs : Records}
    (hnodup : (recs.map Prod.fst).Nodup)
    (hnodash : ∀ p ∈ recs, noDash p.1 = true) :
    ((recs.map Prod.fst).map escapeId).Nodup := by
  apply List.Nodup.map_on _ hnodup
  intro x hx y hy hxy
  rw [List.mem_map] at hx hy
  obtain ⟨px, hpx, rfl⟩ := hx
  obtain ⟨py, hpy, rfl⟩ := hy
  exact escapeId_injOn (noDash_iff.mp (hnodash px hpx)) (noDash_iff.mp (hnodash py hpy)) hxy

theorem buildResourceTables_eq : ∀ (recs : Records) (acc : List (String × Toml)),
    (∀ p ∈ recs, p.2.hash_value.isSome = true) →
    (∀ p ∈ recs, escapeId p.1 ∉ acc.map Prod.fst) →
    ((recs.map Prod.fst).map escapeId).Nodup →
    buildResourceTables recs acc = .ok (acc ++ recs.map encEntry)
  | [], acc, _, _, _ => by simp [buildResourceTables]
  | (k, r) :: rest, acc, hsome, hdisj, hnodup => by
      rw [buildResourceTables,
        recordToToml_of_isSome (hsome (k, r) (List.mem_cons_self _ _))]
      show buildResourceTables rest (dictSet acc (escapeId k) (recTableOf r)) = _
      rw [dictSet_eq_append acc (recTableOf r) (hdisj (k, r) (List.mem_cons_self _ _))]
      simp only [List.map_cons, List.nodup_cons] at hnodup
      rw [buildResourceTables_eq rest (acc ++ [(escapeId k, recTableOf r)])
        (fun p hp => hsome p (List.mem_cons_of_mem _ hp))
        (by
          intro p hp
          simp only [List.map_append, List.map_cons, List.map_nil, List.mem_append,
            List.mem_singleton]
          rintro (hmem | heq)
          · exact hdisj p (List.mem_cons_of_mem _ hp) hmem
          · exact hnodup.1 (heq ▸ List.mem_map_of_mem escapeId
              (List.mem_map_of_mem Prod.fst hp)))
        hnodup.2]
      simp [encEntry, List.append_assoc]

theorem dictGet_of_mem_nodup {α : Type} : ∀ {l : List (String × α)} {k : String} {v : α},
    (l.map Prod.fst).Nodup → (k, v) ∈ l → dictGet l k = some v := by
  intro l
  induction l with
  | nil => intro k v _ hm; simp at hm
  | cons p rest ih =>
      intro k v hnodup hm
      obtain ⟨k1, v1⟩ := p
      simp only [List.map_cons, List.nodup_cons] at hnodup
      rcases List.mem_cons.mp hm with heq | hmem
      · obtain ⟨rfl, rfl⟩ := Prod.mk.injEq .. ▸ heq
        simp [dictGet]
      · have hk : k1 ≠ k := by
          intro hk1
          exact hnodup.1 (hk1 ▸ List.mem_map_of_mem Prod.fst hmem)
        simp [dictGet, hk, ih hnodup.2 hmem]

theorem hash_ne_sync_time : HASH ≠ SYNC_TIME := by decide

theorem dictGet_recTableOf_sync_time (r : ResourceSyncState) :
    dictGet (dictSet (dictSet [] HASH (r.hash_value.getD (.str ""))) SYNC_TIME
      (.str (isoformat r.sync_time))) SYNC_TIME = some (.str (isoformat r.sync_time)) :=
  dictGet_dictSet_self _ _ _

theorem dictGet_recTableOf_hash (r : ResourceSyncState) :
    dictGet (dictSet (dictSet [] HASH (r.hash_value.getD (.str ""))) SYNC_TIME
      (.str (isoformat r.sync_time))) HASH = some (r.hash_value.getD (.str "")) := by
  rw [dictGet_dictSet_ne _ _ hash_ne_sync_time]
  exact dictGet_dictSet_self [] _ _

theorem decodeEntries_roundtrip : ∀ (recs acc : Records) (tbl : List (String × Toml)),
    (∀ p ∈ recs, p.2.hash_value.isSome = true) →
    (∀ p ∈ recs, noDash p.1 = true) →
    ((recs.map Prod.fst).Nodup) →
    (∀ q ∈ recs.map encEntry, dictGet tbl q.1 = some q.2) →
    (∀ p ∈ recs, p.1 ∉ acc.map Prod.fst) →
    decodeResourceEntries tbl (recs.map encEntry) acc = .ok (acc ++ recs)
  | [], acc, tbl, _, _, _, _, _ => by simp [decodeResourceEntries]
  | (k, r) :: rest, acc, tbl, hsome, hnodash, hnodup, hmem, hacc => by
      have hget : dictGet tbl (escapeId k) = some (recTableOf r) :=
        hmem (encEntry (k, r)) (List.mem_map_of_mem encEntry (List.mem_cons_self _ _))
      rw [List.map_cons]
      rw [show encEntry (k, r) = (escapeId k, recTableOf r) from rfl]
      rw [decodeResourceEntries, hget]
      simp only [recTableOf, dictGet_recTableOf_sync_time, fromisoformat_isoformat,
        dictGet_recTableOf_hash]
      have hks : r.hash_value.isSome = true := hsome (k, r) (List.mem_cons_self _ _)
      have hrec : (⟨some (r.hash_value.getD (.str "")), r.sync_time⟩ : ResourceSyncState) = r := by
        cases r with
        | mk hv st =>
            cases hv with
            | none => simp at hks
            | some v => rfl
      rw [unescapeId_escapeId_of_no_dash k (noDash_iff.mp (hnodash (k, r) (List.mem_cons_self _ _))),
        hrec,
        dictSet_eq_append acc r (hacc (k, r) (List.mem_cons_self _ _))]
      simp only [List.map_cons, List.nodup_cons] at hnodup
      rw [decodeEntries_roundtrip rest (acc ++ [(k, r)]) tbl
        (fun p hp => hsome p (List.mem_cons_of_mem _ hp))
        (fun p hp => hnodash p (List.mem_cons_of_mem _ hp))
        hnodup.2
        (fun q hq => hmem q (List.mem_cons_of_mem _ hq))
        (by
          intro p hp
          simp only [List.map_append, List.map_cons, List.map_nil, List.mem_append,
            List.mem_singleton]
          rintro (hm | heq)
          · exact hacc p (List.mem_cons_of_mem _ hp) hm
          · exact hnodup.1 (heq ▸ List.mem_map_of_mem Prod.fst hp))]
      simp [List.append_assoc]

theorem sync_state_ne_resource : SYNC_STATE ≠ RESOURCE_SYNC_STATES := by decide

theorem map_fst_encEntry (recs : Records) :
    (recs.map encEntry).map Prod.fst = (recs.map Prod.fst).map escapeId := by
  rw [List.map_map, List.map_map]
  apply List.map_congr_left
  intro p hp
  rfl

theorem syncStateToTomlDocument_eq (v : Toml) (recs : Records)
    (hsome : ∀ p ∈ recs, p.2.hash_value.isSome = true)
    (hnodup : ((recs.map Prod.fst).map escapeId).Nodup) :
    syncStateToTomlDocument ⟨some v, recs⟩ =
      .ok [(SYNC_STATE, .table [(DEPENDENCY_LAYER, v)]),
           (RESOURCE_SYNC_STATES, .table (recs.map encEntry))] := by
  simp only [syncStateToTomlDocument]
  rw [buildResourceTables_eq recs [] hsome (by simp) hnodup]
  simp [dictSet]

theorem tomlDocumentToSyncState_encoded (v : Toml) (recs : Records)
    (hsome : ∀ p ∈ recs, p.2.hash_value.isSome = true)
    (hnodash : ∀ p ∈ recs, noDash p.1 = true)
    (hnodup : (recs.map Prod.fst).Nodup) :
    tomlDocumentToSyncState [(SYNC_STATE, .table [(DEPENDENCY_LAYER, v)]),
      (RESOURCE_SYNC_STATES, .table (recs.map encEntry))] = .ok (some ⟨some v, recs⟩) := by
  have hget1 : dictGet [(SYNC_STATE, Toml.table [(DEPENDENCY_LAYER, v)]),
      (RESOURCE_SYNC_STATES, .table (recs.map encEntry))] SYNC_STATE
      = some (.table [(DEPENDENCY_LAYER, v)]) := by
    simp [dictGet]
  have hget2 : dictGet [(SYNC_STATE, Toml.table [(DEPENDENCY_LAYER, v)]),
      (RESOURCE_SYNC_STATES, .table (recs.map encEntry))] RESOURCE_SYNC_STATES
      = some (.table (recs.map encEntry)) := by
    simp [dictGet, sync_state_ne_resource]
  simp only [tomlDocumentToSyncState, hget1, hget2, Option.getD_some, List.isEmpty_cons,
    Bool.false_eq_true, if_false, truthyOpt, truthy, Bool.not_false, Bool.true_or,
    Bool.not_true]
  cases recs with
  | nil => simp [dictGet]
  | cons p rest =>
      have hkeysnodup : ((List.map encEntry (p :: rest)).map Prod.fst).Nodup := by
        rw [map_fst_encEntry]
        exact escaped_keys_nodup hnodup hnodash
      have hmem : ∀ q ∈ List.map encEntry (p :: rest),
          dictGet (List.map encEntry (p :: rest)) q.1 = some q.2 :=
        fun q hq => dictGet_of_mem_nodup hkeysnodup hq
      have hempty : (List.map encEntry (p :: rest)).isEmpty = false := by simp
      have hdec := decodeEntries_roundtrip (p :: rest) [] (List.map encEntry (p :: rest))
        hsome hnodash hnodup hmem (by simp)
      simp only [hempty, Bool.not_false, if_true, hdec]
      simp [dictGet]

/-! ### Decoder totality on tolerated documents -/

theorem mem_dictSet {α : Type} : ∀ {l : List (String × α)} {k : String} {v : α} {q},
    q ∈ dictSet l k v → q ∈ l ∨ q = (k, v) := by
  intro l
  induction l with
  | nil => intro k v q hq; simp [dictSet] at hq; simp [hq]
  | cons p rest ih =>
      intro k v q hq
      obtain ⟨k1, v1⟩ := p
      by_cases hk : k1 = k
      · subst hk
        simp only [dictSet, if_pos] at hq
        rcases List.mem_cons.mp hq with heq | hmem
        · exact Or.inr heq
        · exact Or.inl (List.mem_cons_of_mem _ hmem)
      · simp only [dictSet, if_neg hk] at hq
        rcases List.mem_cons.mp hq with heq | hmem
        · exact Or.inl (heq ▸ List.mem_cons_self _ _)
        · rcases ih hmem with hin | hval
          · exact Or.inl (List.mem_cons_of_mem _ hin)
          · exact Or.inr hval

theorem entryTimeOk_recTableOf (r : ResourceSyncState) :
    entryTimeOk (recTableOf r) = true := by
  simp [entryTimeOk, recTableOf, dictGet_recTableOf_sync_time, fromisoformat_isoformat]

theorem buildResourceTables_ok : ∀ (recs : Records) (acc : List (String × Toml)),
    (∀ p ∈ recs, p.2.hash_value.isSome = true) →
    (∀ q ∈ acc, entryTimeOk q.2 = true) →
    ∃ T, buildResourceTables recs acc = .ok T ∧ ∀ q ∈ T, entryTimeOk q.2 = true
  | [], acc, _, hacc => ⟨acc, by simp [buildResourceTables], hacc⟩
  | (k, r) :: rest, acc, hsome, hacc => by
      rw [buildResourceTables,
        recordToToml_of_isSome (hsome (k, r) (List.mem_cons_self _ _))]
      show ∃ T, buildResourceTables rest (dictSet acc (escapeId k) (recTableOf r)) = .ok T ∧ _
      exact buildResourceTables_ok rest (dictSet acc (escapeId k) (recTableOf r))
        (fun p hp => hsome p (List.mem_cons_of_mem _ hp))
        (fun q hq => by
          rcases mem_dictSet hq with hin | hval
          · exact hacc q hin
          · rw [hval]; exact entryTimeOk_recTableOf r)


theorem decodeEntries_ok (tbl : List (String × Toml))
    (htbl : ∀ q ∈ tbl, entryTimeOk q.2 = true) :
    ∀ (entries : List (String × Toml)) (acc : Records),
    (∀ q ∈ entries, q.1 ∈ tbl.map Prod.fst) →
    ∃ res, decodeResourceEntries tbl entries acc = .ok res
  | [], acc, _ => ⟨acc, by simp [decodeResourceEntries]⟩
  | (rid, w) :: rest, acc, hkeys => by
      obtain ⟨u, hu⟩ := dictGet_isSome_of_mem tbl
        (hkeys (rid, w) (List.mem_cons_self _ _))
      have hok : entryTimeOk u = true := htbl (rid, u) (dictGet_mem hu)
      rw [decodeResourceEntries, hu]
      cases u with
      | str s => simp [entryTimeOk] at hok
      | bool b => simp [entryTimeOk] at hok
      | table rt =>
          show ∃ res, (match dictGet rt SYNC_TIME with
            | some (.str s) =>
                match fromisoformat s with
                | some t => decodeResourceEntries tbl rest
                    (dictSet acc (unescapeId rid) ⟨dictGet rt HASH, t⟩)
                | none => (.error "ValueError" : Except String Records)
            | some _ => .error "TypeError"
            | none => .error "TypeError") = .ok res
          rw [entryTimeOk] at hok
          cases hst : dictGet rt SYNC_TIME with
          | none => rw [hst] at hok; simp at hok
          | some tv =>
              cases tv with
              | str s =>
                  rw [hst] at hok
                  have hok2 : (fromisoformat s).isSome = true := hok
                  show ∃ res, (match fromisoformat s with
                    | some t => decodeResourceEntries tbl rest
                        (dictSet acc (unescapeId rid) ⟨dictGet rt HASH, t⟩)
                    | none => (.error "ValueError" : Except String Records)) = .ok res
                  cases hfi : fromisoformat s with
                  | none => rw [hfi] at hok2; simp at hok2
                  | some t =>
                      show ∃ res, decodeResourceEntries tbl rest
                        (dictSet acc (unescapeId rid) ⟨dictGet rt HASH, t⟩) = .ok res
                      exact decodeEntries_ok tbl htbl rest
                        (dictSet acc (unescapeId rid) ⟨dictGet rt HASH, t⟩)
                        (fun q hq => hkeys q (List.mem_cons_of_mem _ hq))
              | bool b => rw [hst] at hok; simp at hok
              | table t2 => rw [hst] at hok; simp at hok

theorem tomlDocumentToSyncState_ok (doc : TomlDoc)
    (h1 : syncSectionOk (dictGet doc SYNC_STATE) = true)
    (h2 : resourceSectionOk (dictGet doc RESOURCE_SYNC_STATES) = true) :
    ∃ r, tomlDocumentToSyncState doc = .ok r := by
  by_cases hemp : doc.isEmpty = true
  · refine ⟨none, ?_⟩
    simp only [tomlDocumentToSyncState, hemp, if_true]
  · simp only [tomlDocumentToSyncState]
    rw [if_neg hemp]
    set sstv := dictGet doc SYNC_STATE with hsst
    set rstv := (dictGet doc RESOURCE_SYNC_STATES).getD (.table []) with hrst
    clear_value sstv rstv
    by_cases hcond : (!(truthyOpt sstv || truthy rstv)) = true
    · rw [if_pos hcond]
      exact ⟨none, rfl⟩
    · rw [if_neg hcond]
      have hrec : ∃ res, (if truthy rstv = true then
          match rstv with
          | .table entries => decodeResourceEntries entries entries []
          | _ => .error "AttributeError"
         else .ok ([] : Records)) = .ok res := by
        by_cases htr : truthy rstv = true
        · rw [if_pos htr]
          cases horig : dictGet doc RESOURCE_SYNC_STATES with
          | none =>
              rw [hrst, horig] at htr
              simp [truthy] at htr
          | some w =>
              rw [horig] at h2
              have hw : rstv = w := by rw [hrst, horig]; rfl
              cases w with
              | table es =>
                  rw [hw]
                  have hall : ∀ q ∈ es, entryTimeOk q.2 = true := by
                    rw [resourceSectionOk] at h2
                    simpa [List.all_eq_true] using h2
                  exact decodeEntries_ok es hall es []
                    (fun q hq => List.mem_map_of_mem Prod.fst hq)
              | str s =>
                  rw [hw] at htr
                  simp [resourceSectionOk, htr] at h2
              | bool b =>
                  rw [hw] at htr
                  simp [resourceSectionOk, htr] at h2
        · rw [if_neg htr]
          exact ⟨[], rfl⟩
      obtain ⟨res, hres⟩ := hrec
      rw [hres]
      cases sstv with
      | none => exact ⟨some ⟨some (.bool false), res⟩, rfl⟩
      | some w =>
          cases w with
          | table st =>
              cases st with
              | nil => exact ⟨some ⟨some (.bool false), res⟩, rfl⟩
              | cons q qs => exact ⟨some ⟨dictGet (q :: qs) DEPENDENCY_LAYER, res⟩, rfl⟩
          | str s =>
              have hf : truthy (.str s) = false := by
                simpa [syncSectionOk] using h1
              have hf2 : truthyOpt (some (.str s)) = false := hf
              rw [if_neg (by simp [hf2])]
              exact ⟨some ⟨some (.bool false), res⟩, rfl⟩
          | bool b =>
              have hb : b = false := by
                simpa [syncSectionOk, truthy] using h1
              subst hb
              exact ⟨some ⟨some (.bool false), res⟩, rfl⟩

theorem syncStateToTomlDocument_ok (v : Toml) (recs : Records)
    (hsome : ∀ p ∈ recs, p.2.hash_value.isSome = true) :
    ∃ T, syncStateToTomlDocument ⟨some v, recs⟩ =
      .ok [(SYNC_STATE, .table [(DEPENDENCY_LAYER, v)]),
           (RESOURCE_SYNC_STATES, .table T)] ∧ ∀ q ∈ T, entryTimeOk q.2 = true := by
  obtain ⟨T, hT, hgood⟩ := buildResourceTables_ok recs [] hsome (by simp)
  refine ⟨T, ?_, hgood⟩
  simp only [syncStateToTomlDocument, hT]
  simp [dictSet]

theorem decode_two_sections (v : Toml) (T : List (String × Toml))
    (hT : ∀ q ∈ T, entryTimeOk q.2 = true) :
    ∃ recs2 dep2, tomlDocumentToSyncState [(SYNC_STATE, .table [(DEPENDENCY_LAYER, v)]),
      (RESOURCE_SYNC_STATES, .table T)] = .ok (some ⟨dep2, recs2⟩) := by
  have hget1 : dictGet [(SYNC_STATE, Toml.table [(DEPENDENCY_LAYER, v)]),
      (RESOURCE_SYNC_STATES, .table T)] SYNC_STATE
      = some (.table [(DEPENDENCY_LAYER, v)]) := by
    simp [dictGet]
  have hget2 : dictGet [(SYNC_STATE, Toml.table [(DEPENDENCY_LAYER, v)]),
      (RESOURCE_SYNC_STATES, .table T)] RESOURCE_SYNC_STATES
      = some (.table T) := by
    simp [dictGet, sync_state_ne_resource]
  simp only [tomlDocumentToSyncState, hget1, hget2, Option.getD_some, List.isEmpty_cons,
    Bool.false_eq_true, if_false, truthyOpt, truthy, Bool.not_false, Bool.true_or,
    Bool.not_true]
  cases T with
  | nil =>
      refine ⟨[], some v, ?_⟩
      simp [dictGet]
  | cons q qs =>
      obtain ⟨res, hres⟩ := decodeEntries_ok (q :: qs) hT (q :: qs) []
        (fun q2 hq2 => List.mem_map_of_mem Prod.fst hq2)
      have hempty : ((q :: qs) : List (String × Toml)).isEmpty = false := rfl
      refine ⟨res, some v, ?_⟩
      simp only [hempty, Bool.not_false, if_true, hres]
      simp [dictGet]

/-! ### The claims -/

/-- C1 (corrected): the claim quantifies over identifiers that may contain
`'-'`; for those, unescaping the escaped form replaces the `'-'` by `'/'`
and does not return the original identifier.  Witnessed at `"a-b"`. -/
theorem claim_C1_counterexample : ¬(unescapeId (escapeId "a-b") = "a-b") := by decide

/-- C1 (amended): for every resource identifier containing no `'-'`
character, unescaping the escaped form returns the original identifier:
`unescape(escape(id)) = id`. -/
theorem claim_C1 (rid : String) (h : ∀ c ∈ rid.data, c ≠ '-') :
    unescapeId (escapeId rid) = rid :=
  unescapeId_escapeId_of_no_dash rid h

theorem claim_C1_witness :
    unescapeId (escapeId "NestedApp/ChildStack/Function") = "NestedApp/ChildStack/Function" :=
  claim_C1 "NestedApp/ChildStack/Function" (by decide)

/-- C2 (corrected): decoding the encoding of `dashState`, whose single
resource identifier `"a-b"` contains `'-'`, yields records keyed `"a/b"`,
not the original `resource_records`. -/
theorem claim_C2_counterexample :
    ¬(roundTripRecords dashState = some dashState.resource_sync_states) ∧
    roundTripRecordKeys dashState = some ["a/b"] := by
  constructor
  · intro h
    have h2 := congrArg (Option.map (fun rs : Records => rs.map Prod.fst)) h
    rw [show Option.map (fun rs : Records => rs.map Prod.fst) (roundTripRecords dashState)
        = some ["a/b"] from rfl] at h2
    rw [show Option.map (fun rs : Records => rs.map Prod.fst)
        (some dashState.resource_sync_states) = some ["a-b"] from rfl] at h2
    exact absurd h2 (by decide)
  · rfl

/-- C2 (amended): for every `SyncState` with a boolean `dependency_layer`,
string hash values, and resource identifiers that are distinct and contain
no `'-'`, decoding the encoding reproduces `resource_records` exactly (the
same identifiers in the same order, each with the same hash string and the
same timestamp after the ISO-8601 round-trip). -/
theorem claim_C2 (S : SyncState) (b : Bool)
    (hdep : S.dependency_layer = some (.bool b))
    (hnodup : (S.resource_sync_states.map Prod.fst).Nodup)
    (hnodash : ∀ p ∈ S.resource_sync_states, noDash p.1 = true)
    (hstr : ∀ p ∈ S.resource_sync_states, isStrHash p.2.hash_value = true) :
    ∃ doc s2, syncStateToTomlDocument S = .ok doc ∧
      tomlDocumentToSyncState doc = .ok (some s2) ∧
      s2.resource_sync_states = S.resource_sync_states := by
  have hsome : ∀ p ∈ S.resource_sync_states, p.2.hash_value.isSome = true := by
    intro p hp
    have := hstr p hp
    cases hv : p.2.hash_value with
    | none => rw [hv] at this; simp [isStrHash] at this
    | some w => rfl
  obtain ⟨dep, recs⟩ := S
  simp only at hdep hnodup hnodash hstr hsome
  subst hdep
  exact ⟨_, ⟨some (.bool b), recs⟩,
    syncStateToTomlDocument_eq (.bool b) recs hsome (escaped_keys_nodup hnodup hnodash),
    tomlDocumentToSyncState_encoded (.bool b) recs hsome hnodash hnodup, rfl⟩

theorem claim_C2_witness :
    ∃ doc s2,
      syncStateToTomlDocument ⟨some (.bool true),
        [("Function1", ⟨some (.str "hashA"), 3⟩),
         ("Nested/Stack/Function2", ⟨some (.str "hashB"), 47⟩)]⟩ = .ok doc ∧
      tomlDocumentToSyncState doc = .ok (some s2) ∧
      s2.resource_sync_states =
        [("Function1", ⟨some (.str "hashA"), 3⟩),
         ("Nested/Stack/Function2", ⟨some (.str "hashB"), 47⟩)] :=
  claim_C2 ⟨some (.bool true),
    [("Function1", ⟨some (.str "hashA"), 3⟩),
     ("Nested/Stack/Function2", ⟨some (.str "hashB"), 47⟩)]⟩ true
    rfl (by decide) (by decide) (by decide)

/-- C10 (confirmed): for every `SyncState` whose fields conform to their
declared Python types (a boolean `dependency_layer`, present hash values),
including empty `resource_records` and either flag value, the encoded
document carries both top-level sections and therefore decodes to a
present state, never to "no previous state". -/
theorem claim_C10 (S : SyncState) (b : Bool)
    (hdep : S.dependency_layer = some (.bool b))
    (hsome : ∀ p ∈ S.resource_sync_states, p.2.hash_value.isSome = true) :
    ∃ doc s2, syncStateToTomlDocument S = .ok doc ∧
      tomlDocumentToSyncState doc = .ok (some s2) := by
  obtain ⟨dep, recs⟩ := S
  simp only at hdep hsome
  subst hdep
  obtain ⟨T, hT, hgood⟩ := syncStateToTomlDocument_ok (.bool b) recs hsome
  obtain ⟨recs2, dep2, hdec⟩ := decode_two_sections (.bool b) T hgood
  exact ⟨_, ⟨dep2, recs2⟩, hT, hdec⟩

theorem claim_C10_witness :
    ∃ doc s2,
      syncStateToTomlDocument ⟨some (.bool false), []⟩ = .ok doc ∧
      tomlDocumentToSyncState doc = .ok (some s2) :=
  claim_C10 ⟨some (.bool false), []⟩ false rfl (by decide)

/-- C5 (corrected): the decoder does tolerate a missing or falsy top-level
section (and a resource entry lacking `hash`), but a resource entry whose
`sync_time` is missing raises `TypeError`, and `_read` catches only
`OSError`, so the error surfaces to the caller through `__enter__`. -/
theorem claim_C5_counterexample :
    tomlDocumentToSyncState
      [(RESOURCE_SYNC_STATES, .table [("r", .table [(HASH, .str "h")])])]
      = .error "TypeError" ∧
    enterContext (mkSyncContext false
      (some [(RESOURCE_SYNC_STATES, .table [("r", .table [(HASH, .str "h")])])])
      true true true) = .error "TypeError" :=
  ⟨rfl, rfl⟩

/-- C5 (amended): decoding never raises on a document whose two top-level
sections are each absent, falsy, or a table, provided every resource entry
is itself a table carrying a `sync_time` string that parses — in
particular missing sections and resource entries lacking `hash` are
tolerated; but a resource entry lacking `sync_time` (or with unparsable or
non-string `sync_time`, or a truthy non-table section/entry) raises, and
the exception propagates to the caller. -/
theorem claim_C5 (doc : TomlDoc)
    (h1 : syncSectionOk (dictGet doc SYNC_STATE) = true)
    (h2 : resourceSectionOk (dictGet doc RESOURCE_SYNC_STATES) = true) :
    ∃ r, tomlDocumentToSyncState doc = .ok r :=
  tomlDocumentToSyncState_ok doc h1 h2

theorem claim_C5_witness :
    ∃ r, tomlDocumentToSyncState
      [(RESOURCE_SYNC_STATES, .table [("r", .table [(SYNC_TIME, .str "7")])])] = .ok r :=
  claim_C5 [(RESOURCE_SYNC_STATES, .table [("r", .table [(SYNC_TIME, .str "7")])])]
    (by decide) (by decide)

theorem getResourceLatestSyncHash_eq (ctx : SyncContext) (resource_id : String) :
    getResourceLatestSyncHash ctx resource_id =
      (dictGet (currentRecords ctx) resource_id).bind ResourceSyncState.hash_value := by
  rw [getResourceLatestSyncHash]
  cases dictGet (currentRecords ctx) resource_id with
  | none => rfl
  | some r => rfl

/-- C9 (confirmed): `get_resource_latest_sync_hash` returns exactly the
stored `hash_value` of the record for the identifier when one exists and
`None` when none exists.  It is embedded as a pure, total function of the
context — it cannot raise (a miss returns `None`) and by construction
leaves `current_state`, `previous_state` and the file untouched. -/
theorem claim_C9 (ctx : SyncContext) (resource_id : String) :
    getResourceLatestSyncHash ctx resource_id =
      (dictGet (currentRecords ctx) resource_id).bind ResourceSyncState.hash_value :=
  getResourceLatestSyncHash_eq ctx resource_id

theorem getD_append_length {α : Type} (l : List α) (x d : α) :
    (l ++ [x]).getD l.length d = x := by
  induction l with
  | nil => rfl
  | cons a t ih => simp [List.getD, ih]

theorem getD_set_self {α : Type} : ∀ (l : List α) (i : Nat) (a d : α), i < l.length →
    (l.set i a).getD i d = a
  | [], i, a, d, h => by simp at h
  | x :: t, 0, a, d, _ => rfl
  | x :: t, i + 1, a, d, h => by
      have : i < t.length := by simpa using h
      simpa [List.getD] using getD_set_self t i a d this

theorem writeState_eq (ctx : SyncContext)
    (hsome : ∀ p ∈ currentRecords ctx, p.2.hash_value.isSome = true)
    (hnodup : (((currentRecords ctx).map Prod.fst).map escapeId).Nodup) :
    writeState ctx = .ok { ctx with file := some (
      [(SYNC_STATE, .table [(DEPENDENCY_LAYER, .bool ctx.current_dep)]),
       (RESOURCE_SYNC_STATES, .table ((currentRecords ctx).map encEntry))]) } := by
  rw [writeState, syncStateToTomlDocument_eq (.bool ctx.current_dep) (currentRecords ctx)
    hsome hnodup]

/-- C3 (corrected): write-through holds for identifiers containing no `'-'`
in a store whose current records are well formed (distinct, dash-free
identifiers and present hash values): after a successful
`update_resource_sync_state(id, h)`, decoding the persisted file yields a
state whose records contain a record for `id` with hash `h` (and the
update's timestamp). -/
theorem claim_C3 (ctx : SyncContext) (rid hv : String) (now : Timestamp)
    (href : ctx.current_ref < ctx.heap.length)
    (hnodup : ((currentRecords ctx).map Prod.fst).Nodup)
    (hnodash : ∀ p ∈ currentRecords ctx, noDash p.1 = true)
    (hsome : ∀ p ∈ currentRecords ctx, p.2.hash_value.isSome = true)
    (hrid : noDash rid = true) :
    ∃ ctx2 doc s2, updateResourceSyncState ctx rid hv now = .ok ctx2 ∧
      ctx2.file = some doc ∧
      tomlDocumentToSyncState doc = .ok (some s2) ∧
      dictGet s2.resource_sync_states rid = some ⟨some (.str hv), now⟩ := by
  have hnodup2 : ((dictSet (currentRecords ctx) rid ⟨some (.str hv), now⟩).map Prod.fst).Nodup :=
    nodup_keys_dictSet (currentRecords ctx) rid _ hnodup
  have hnodash2 : ∀ p ∈ dictSet (currentRecords ctx) rid ⟨some (.str hv), now⟩,
      noDash p.1 = true := by
    intro p hp
    rcases mem_dictSet hp with hin | heq
    · exact hnodash p hin
    · rw [heq]; exact hrid
  have hsome2 : ∀ p ∈ dictSet (currentRecords ctx) rid ⟨some (.str hv), now⟩,
      p.2.hash_value.isSome = true := by
    intro p hp
    rcases mem_dictSet hp with hin | heq
    · exact hsome p hin
    · rw [heq]; rfl
  have hcur : currentRecords { ctx with
      heap := ctx.heap.set ctx.current_ref (dictSet (currentRecords ctx) rid ⟨some (.str hv), now⟩) }
      = dictSet (currentRecords ctx) rid ⟨some (.str hv), now⟩ :=
    getD_set_self ctx.heap ctx.current_ref _ [] href
  have hupd : updateResourceSyncState ctx rid hv now = .ok { ctx with
      heap := ctx.heap.set ctx.current_ref (dictSet (currentRecords ctx) rid ⟨some (.str hv), now⟩),
      file := some (
        [(SYNC_STATE, .table [(DEPENDENCY_LAYER, .bool ctx.current_dep)]),
         (RESOURCE_SYNC_STATES, .table
           ((dictSet (currentRecords ctx) rid ⟨some (.str hv), now⟩).map encEntry))]) } := by
    show writeState { ctx with
        heap := ctx.heap.set ctx.current_ref
          (dictSet (currentRecords ctx) rid ⟨some (.str hv), now⟩) } = _
    rw [writeState_eq _ (by rw [hcur]; exact hsome2)
      (by rw [hcur]; exact escaped_keys_nodup hnodup2 hnodash2)]
    rw [hcur]
  refine ⟨_, _, ⟨some (.bool ctx.current_dep), dictSet (currentRecords ctx) rid ⟨some (.str hv), now⟩⟩,
    hupd, rfl, ?_, ?_⟩
  · exact tomlDocumentToSyncState_encoded (.bool ctx.current_dep) _ hsome2 hnodash2 hnodup2
  · exact dictGet_dictSet_self (currentRecords ctx) rid _

theorem claim_C3_witness :
    ∃ ctx2 doc s2,
      updateResourceSyncState (mkSyncContext false none true true true)
        "Nested/Stack/Func" "abc123" 42 = .ok ctx2 ∧
      ctx2.file = some doc ∧
      tomlDocumentToSyncState doc = .ok (some s2) ∧
      dictGet s2.resource_sync_states "Nested/Stack/Func" = some ⟨some (.str "abc123"), 42⟩ :=
  claim_C3 (mkSyncContext false none true true true) "Nested/Stack/Func" "abc123" 42
    (by decide) (by decide) (by decide) (by decide) (by decide)

/-- C3 (counterexample to the unrestricted claim): updating the identifier
`"a-b"` persists and decodes successfully, but the decoded state has no
record for `"a-b"` — the record comes back under `"a/b"`. -/
theorem claim_C3_counterexample :
    (persistedStateAfterUpdate (mkSyncContext false none true true true) "a-b" "h1" 5).map
      (fun s => (dictGet s.resource_sync_states "a-b").isSome) = some false ∧
    (persistedStateAfterUpdate (mkSyncContext false none true true true) "a-b" "h1" 5).map
      (fun s => (dictGet s.resource_sync_states "a/b").isSome) = some true :=
  ⟨rfl, rfl⟩

theorem enterContext_none_eq (dep b c d : Bool) :
    enterContext (mkSyncContext dep none b c d) = .ok (mkSyncContext dep none b c d) := rfl

theorem enterContext_error_eq (dep b c d : Bool) (doc : TomlDoc) (e : String)
    (hdec : tomlDocumentToSyncState doc = .error e) :
    enterContext (mkSyncContext dep (some doc) b c d) = .error e := by
  simp only [enterContext, readState, mkSyncContext, hdec]

theorem enterContext_decode_none_eq (dep b c d : Bool) (doc : TomlDoc)
    (hdec : tomlDocumentToSyncState doc = .ok none) :
    enterContext (mkSyncContext dep (some doc) b c d) =
      .ok { mkSyncContext dep (some doc) b c d with prev := none } := by
  simp only [enterContext, readState, mkSyncContext, hdec]

theorem enterContext_some_eq (dep b c d : Bool) (doc : TomlDoc) (s : SyncState)
    (hdec : tomlDocumentToSyncState doc = .ok (some s)) :
    enterContext (mkSyncContext dep (some doc) b c d) =
      .ok (if pyEqBool s.dependency_layer dep
           then (⟨dep, 1, some ⟨s.dependency_layer, 1⟩, [[], s.resource_sync_states],
                  some doc, b, c, d, 0⟩ : SyncContext)
           else ⟨dep, 1, some ⟨s.dependency_layer, 1⟩, [[], s.resource_sync_states],
                  some doc, false, false, false, 1⟩) := by
  simp only [enterContext, readState, mkSyncContext, hdec]
  by_cases hpy : pyEqBool s.dependency_layer dep = true
  · simp [hpy, cleanupBuildFolders]
  · simp only [Bool.not_eq_true] at hpy
    simp [hpy, cleanupBuildFolders]

/-- C7 (confirmed): starting with no prior state file (or an unreadable
one, both modelled by `file = none` since `_read` catches the `OSError`)
yields no previous state, empty current records, no cleanup, and untouched
directories, for either value of the caller-supplied flag. -/
theorem claim_C7 (dep b c d : Bool) :
    ∃ ctx1, enterContext (mkSyncContext dep none b c d) = .ok ctx1 ∧
      ctx1.prev = none ∧ currentRecords ctx1 = [] ∧ ctx1.cleanup_count = 0 ∧
      ctx1.build_dir_exists = b ∧ ctx1.cache_dir_exists = c ∧ ctx1.deps_dir_exists = d :=
  ⟨mkSyncContext dep none b c d, rfl, rfl, rfl, rfl, rfl, rfl, rfl⟩

/-- C8 (confirmed): `__enter__` never changes the session's
`dependency_layer`: the current state keeps the caller-supplied flag for
every file content and every loaded previous state; only the records dict
is carried over (the current records object is the previous state's
records object). -/
theorem claim_C8 (dep : Bool) (fs : Option TomlDoc) (b c d : Bool) (ctx1 : SyncContext)
    (h : enterContext (mkSyncContext dep fs b c d) = .ok ctx1) :
    ctx1.current_dep = dep ∧
    (∀ p, ctx1.prev = some p → currentRecords ctx1 = ctx1.heap.getD p.records_ref []) := by
  cases fs with
  | none =>
      rw [enterContext_none_eq] at h
      injection h with h2
      subst h2
      refine ⟨rfl, ?_⟩
      intro p hp
      simp [mkSyncContext] at hp
  | some doc =>
      cases hdec : tomlDocumentToSyncState doc with
      | error e =>
          rw [enterContext_error_eq dep b c d doc e hdec] at h
          exact absurd h (by simp)
      | ok os =>
          cases os with
          | none =>
              rw [enterContext_decode_none_eq dep b c d doc hdec] at h
              injection h with h2
              subst h2
              refine ⟨rfl, ?_⟩
              intro p hp
              simp [mkSyncContext] at hp
          | some s =>
              rw [enterContext_some_eq dep b c d doc s hdec] at h
              injection h with h2
              subst h2
              by_cases hpy : pyEqBool s.dependency_layer dep = true
              · rw [if_pos hpy]
                refine ⟨rfl, ?_⟩
                intro p hp
                injection hp with hp2
                subst hp2
                rfl
              · rw [if_neg hpy]
                refine ⟨rfl, ?_⟩
                intro p hp
                injection hp with hp2
                subst hp2
                rfl

theorem claim_C8_witness :
    ∃ ctx1, enterContext (mkSyncContext false
        (some [(SYNC_STATE, .table [(DEPENDENCY_LAYER, .bool true)]),
               (RESOURCE_SYNC_STATES, .table [])]) true true true) = .ok ctx1 ∧
      ctx1.current_dep = false := by
  have h : enterContext (mkSyncContext false
      (some [(SYNC_STATE, .table [(DEPENDENCY_LAYER, .bool true)]),
             (RESOURCE_SYNC_STATES, .table [])]) true true true)
      = .ok ⟨false, 1, some ⟨some (.bool true), 1⟩, [[], []],
          some [(SYNC_STATE, .table [(DEPENDENCY_LAYER, .bool true)]),
                (RESOURCE_SYNC_STATES, .table [])], false, false, false, 1⟩ := rfl
  exact ⟨_, h, (claim_C8 false _ true true true _ h).1⟩

theorem prevRecords_eq_current (c : SyncContext) (p : PrevState)
    (hp : c.prev = some p) (ha : p.records_ref = c.current_ref) :
    prevRecords c = some (currentRecords c) := by
  rw [prevRecords, hp]
  show some (c.heap.getD p.records_ref []) = some (currentRecords c)
  rw [ha]
  rfl

/-- C4 (corrected): after `__enter__` loads a non-empty previous state,
`_current_state.resource_sync_states` is the SAME dict object as
`_previous_state.resource_sync_states` (reference assignment in `_read`),
so `update_resource_sync_state` changes the previous state's records too.
Here: after entering on `c4PrevDoc`, updating the fresh identifier `"y"`
grows the previous state's record keys from `["x"]` to `["x", "y"]`. -/
theorem claim_C4_counterexample :
    enterContext (mkSyncContext true (some c4PrevDoc) true true true) = .ok c4Ctx1 ∧
    updateResourceSyncState c4Ctx1 "y" "h1" 6 = .ok c4Ctx2 ∧
    prevRecordKeys c4Ctx1 = some ["x"] ∧
    prevRecordKeys c4Ctx2 = some ["x", "y"] :=
  ⟨rfl, rfl, rfl, rfl⟩

/-- C4 (amended): `update_resource_sync_state` never rebinds
`_previous_state` (its object and `dependency_layer` are untouched), but
the loaded previous state is NOT an isolated snapshot: its records dict is
aliased with the current one, so after every successful update the
previous state's records equal the current records, which are the old
records with the new record set. -/
theorem claim_C4 (ctx ctx2 : SyncContext) (p : PrevState) (rid hv : String) (now : Timestamp)
    (hprev : ctx.prev = some p) (halias : p.records_ref = ctx.current_ref)
    (href : ctx.current_ref < ctx.heap.length)
    (hupd : updateResourceSyncState ctx rid hv now = .ok ctx2) :
    ctx2.prev = some p ∧
    prevRecords ctx2 = some (currentRecords ctx2) ∧
    currentRecords ctx2 = dictSet (currentRecords ctx) rid ⟨some (.str hv), now⟩ := by
  have hupd2 : writeState { ctx with
      heap := ctx.heap.set ctx.current_ref
        (dictSet (currentRecords ctx) rid ⟨some (.str hv), now⟩) } = .ok ctx2 := hupd
  cases henc : syncStateToTomlDocument ⟨some (.bool ctx.current_dep),
      currentRecords { ctx with
        heap := ctx.heap.set ctx.current_ref
          (dictSet (currentRecords ctx) rid ⟨some (.str hv), now⟩) }⟩ with
  | error e =>
      rw [writeState, henc] at hupd2
      exact absurd hupd2 (by simp)
  | ok doc2 =>
      rw [writeState, henc] at hupd2
      injection hupd2 with h2
      subst h2
      refine ⟨hprev, prevRecords_eq_current _ p hprev halias,
        getD_set_self ctx.heap ctx.current_ref _ [] href⟩

theorem claim_C4_witness :
    ∃ ctx2, updateResourceSyncState c4Ctx1 "y" "h1" 6 = .ok ctx2 ∧
      ctx2.prev = some ⟨some (.bool true), 1⟩ ∧
      prevRecords ctx2 = some (currentRecords ctx2) ∧
      currentRecords ctx2 = dictSet (currentRecords c4Ctx1) "y" ⟨some (.str "h1"), 6⟩ := by
  have h := claim_C4 c4Ctx1 c4Ctx2 ⟨some (.bool true), 1⟩ "y" "h1" 6 rfl rfl (by decide) rfl
  exact ⟨c4Ctx2, rfl, h.1, h.2.1, h.2.2⟩

/-- C6 (confirmed): `__enter__` cleans the build, cache and dependencies
directories exactly once (tolerating absence, modelled by unconditionally
recording them absent) precisely when a previous state was loaded and its
`dependency_layer` differs (Python `!=`) from the caller-supplied flag,
and the records carried over from the decoded previous state are the
current records and stay queryable; with equal flags or no previous state,
no cleanup happens and the directories are untouched. -/
theorem claim_C6 (dep b c d : Bool) (fs : Option TomlDoc) (ctx1 : SyncContext)
    (henter : enterContext (mkSyncContext dep fs b c d) = .ok ctx1) :
    ((∃ p, ctx1.prev = some p ∧ pyEqBool p.dependency_layer dep = false) →
      ctx1.build_dir_exists = false ∧ ctx1.cache_dir_exists = false ∧
      ctx1.deps_dir_exists = false ∧ ctx1.cleanup_count = 1 ∧
      ∀ doc s, fs = some doc → tomlDocumentToSyncState doc = .ok (some s) →
        currentRecords ctx1 = s.resource_sync_states ∧
        ∀ k, getResourceLatestSyncHash ctx1 k =
          (dictGet s.resource_sync_states k).bind ResourceSyncState.hash_value) ∧
    ((ctx1.prev = none ∨ ∃ p, ctx1.prev = some p ∧ pyEqBool p.dependency_layer dep = true) →
      ctx1.build_dir_exists = b ∧ ctx1.cache_dir_exists = c ∧
      ctx1.deps_dir_exists = d ∧ ctx1.cleanup_count = 0) := by
  cases fs with
  | none =>
      rw [enterContext_none_eq] at henter
      injection henter with h2
      subst h2
      constructor
      · rintro ⟨p, hp, _⟩
        simp [mkSyncContext] at hp
      · exact fun _ => ⟨rfl, rfl, rfl, rfl⟩
  | some doc =>
      cases hdec : tomlDocumentToSyncState doc with
      | error e =>
          rw [enterContext_error_eq dep b c d doc e hdec] at henter
          exact absurd henter (by simp)
      | ok os =>
          cases os with
          | none =>
              rw [enterContext_decode_none_eq dep b c d doc hdec] at henter
              injection henter with h2
              subst h2
              constructor
              · rintro ⟨p, hp, _⟩
                simp [mkSyncContext] at hp
              · exact fun _ => ⟨rfl, rfl, rfl, rfl⟩
          | some s0 =>
              rw [enterContext_some_eq dep b c d doc s0 hdec] at henter
              injection henter with h2
              subst h2
              by_cases hpy : pyEqBool s0.dependency_layer dep = true
              · rw [if_pos hpy]
                constructor
                · rintro ⟨p, hp, hfalse⟩
                  injection hp with hp2
                  subst hp2
                  rw [hpy] at hfalse
                  exact absurd hfalse (by simp)
                · exact fun _ => ⟨rfl, rfl, rfl, rfl⟩
              · rw [if_neg hpy]
                constructor
                · rintro ⟨p, hp, _⟩
                  refine ⟨rfl, rfl, rfl, rfl, ?_⟩
                  intro doc2 s2 hfs hdec2
                  injection hfs with hfs2
                  subst hfs2
                  rw [hdec] at hdec2
                  injection hdec2 with hs2
                  injection hs2 with hs3
                  subst hs3
                  refine ⟨rfl, ?_⟩
                  intro k
                  rw [getResourceLatestSyncHash_eq]
                  rfl
                · rintro (hnone | ⟨p, hp, htrue⟩)
                  · simp at hnone
                  · injection hp with hp2
                    subst hp2
                    exact absurd htrue hpy

theorem claim_C6_witness :
    ∃ ctx1, enterContext (mkSyncContext false (some c4PrevDoc) true true true) = .ok ctx1 ∧
      ctx1.build_dir_exists = false ∧ ctx1.cache_dir_exists = false ∧
      ctx1.deps_dir_exists = false ∧ ctx1.cleanup_count = 1 ∧
      currentRecords ctx1 = [("x", ⟨some (.str "h0"), 5⟩)] ∧
      getResourceLatestSyncHash ctx1 "x" = some (.str "h0") := by
  have henter : enterContext (mkSyncContext false (some c4PrevDoc) true true true) =
      .ok ⟨false, 1, some ⟨some (.bool true), 1⟩, [[], [("x", ⟨some (.str "h0"), 5⟩)]],
        some c4PrevDoc, false, false, false, 1⟩ := rfl
  have h := (claim_C6 false true true true (some c4PrevDoc) _ henter).1
    ⟨⟨some (.bool true), 1⟩, rfl, rfl⟩
  have hrec := h.2.2.2.2 c4PrevDoc ⟨some (.bool true), [("x", ⟨some (.str "h0"), 5⟩)]⟩ rfl rfl
  refine ⟨_, henter, h.1, h.2.1, h.2.2.1, h.2.2.2.1, hrec.1, ?_⟩
  rw [hrec.2 "x"]
  rfl
